import Mathlib

/-!
Shallow embedding of the expire-ai notification engine
(server/src/services/notificationService.ts, server/src/services/cronService.ts,
server/src/utils date helpers, and the Prisma migration that creates the
`NotificationLog` table with its composite unique index).

Instants are epoch milliseconds as `Int`.  JS `Date.setHours(0,0,0,0)` is
floor-truncation to a multiple of a day; `Math.ceil(a / b)` on an integral `a`
and the exactly representable positive constant `b = 86400000` is integer
ceiling division.  Database tables are association lists; the unique index on
`(foodItemId, type)` makes the storage-level insert reject a duplicate pair
with a thrown unique-constraint error (Prisma error code P2002), which, absent
a `try`/`catch` in the scheduler, propagates and aborts the run.
-/

namespace ExpireAI

/-- `1000 * 60 * 60 * 24`: milliseconds in one day, the divisor used by both
`calculateDaysUntilExpiration` and the scheduler's inline offset computation. -/
def msPerDay : Int := 1000 * 60 * 60 * 24

/-- Integer ceiling division, the value of JS `Math.ceil(a / b)` for an integer
`a` and positive integer `b` whose exact quotient is representable. -/
def ceilDiv (a b : Int) : Int := -((-a).fdiv b)

/-- JS `date.setHours(0, 0, 0, 0)`: normalize an epoch-ms instant to the
midnight that starts its calendar day. -/
def setMidnight (t : Int) : Int := msPerDay * t.fdiv msPerDay

/-- `calculateDaysUntilExpiration` from the date utilities: reset both dates to
midnight, subtract, divide by `1000 * 60 * 60 * 24`, `Math.ceil`. -/
def calculateDaysUntilExpiration (expirationDate today : Int) : Int :=
  ceilDiv (setMidnight expirationDate - setMidnight today) msPerDay

/-- A row of the `FoodItem` table, restricted to the columns the notification
engine reads. -/
structure FoodItem where
  id : Nat
  name : String
  expirationDate : Int
  deriving Repr, DecidableEq

/-- A row of the `User` table with its included `foodItems` relation. -/
structure User where
  id : Nat
  pushToken : Option String
  foodItems : List FoodItem
  deriving Repr, DecidableEq

/-- A row of the `NotificationLog` table (the generated `id` and `sentAt`
columns play no role in the engine and are omitted). -/
structure LogEntry where
  foodItemId : Nat
  type : String
  deriving Repr, DecidableEq

/-- What the Expo push gateway does with one dispatch: HTTP 200, a non-OK
HTTP response, or a rejected `fetch` (network error). -/
inductive GatewayOutcome where
  | ok
  | httpError (text : String)
  | networkError (msg : String)
  deriving Repr, DecidableEq

/-- The `ExpoNotification` payload built by the scheduler; `data` carries only
the food item id.  `toToken` is the payload's `to` field (`to` is reserved in
Lean). -/
structure ExpoNotification where
  toToken : String
  title : String
  body : String
  foodItemId : Nat
  deriving Repr, DecidableEq

/-- The `fetch` to `https://exp.host/--/api/v2/push/send`: resolves with
`response.ok`, or rejects (`Except.error`) on a network failure. -/
def fetchPushSend (outcome : GatewayOutcome) : Except String Bool :=
  match outcome with
  | .ok => .ok true
  | .httpError _ => .ok false
  | .networkError msg => .error msg

/-- `sendPushNotification`: awaits the fetch inside a `try`/`catch`.  A non-OK
response is only logged to the console; the `catch` block swallows a rejected
fetch.  Either way the function resolves with no value (`Promise<void>`). -/
def sendPushNotification (outcome : GatewayOutcome) (_notification : ExpoNotification) :
    Except String Unit :=
  match fetchPushSend outcome with
  | .ok respOk => if respOk then .ok () else .ok ()
  | .error _ => .ok ()

/-- `prisma.notificationLog.findUnique` on the composite key
`foodItemId_type`. -/
def notificationLogFindUnique (log : List LogEntry) (foodItemId : Nat) (type : String) :
    Option LogEntry :=
  log.find? fun e => e.foodItemId == foodItemId && e.type == type

/-- `prisma.notificationLog.create`, backed by the migration's
`CREATE UNIQUE INDEX "NotificationLog_foodItemId_type_key"`: inserting an
existing `(foodItemId, type)` pair is rejected by the storage layer and
surfaces as a thrown unique-constraint error (Prisma `P2002`). -/
def notificationLogCreate (log : List LogEntry) (foodItemId : Nat) (type : String) :
    Except String (List LogEntry) :=
  if log.any (fun e => e.foodItemId == foodItemId && e.type == type) then
    .error "P2002"
  else
    .ok (log ++ [⟨foodItemId, type⟩])

/-- The `if`/`else if` chain of the scheduler choosing `notificationType`,
`title` and `body` from `daysUntilExpiration`; `none` models the
`notificationType = null` case. -/
def selectNotification (daysUntilExpiration : Int) (name : String) :
    Option (String × String × String) :=
  if daysUntilExpiration = 0 then
    some ("expiry_day", "Food Expiring Today!",
      name ++ " expires today. Use it before it goes bad!")
  else if daysUntilExpiration = 1 then
    some ("one_day", "Food Expiring Tomorrow",
      name ++ " expires tomorrow. Plan to use it soon!")
  else if daysUntilExpiration = 3 then
    some ("three_day", "Food Expiring Soon",
      name ++ " expires in 3 days.")
  else
    none

/-- `prisma.user.findMany({ where: { pushToken: { not: null } },
include: { foodItems: { where: { expirationDate: { gte: today,
lte: threeDaysFromNow } } } } })`. -/
def findUsersWithExpiringItems (today threeDaysFromNow : Int) (users : List User) :
    List User :=
  (users.filter fun u => u.pushToken.isSome).map fun u =>
    { u with foodItems := u.foodItems.filter fun item =>
        today ≤ item.expirationDate && item.expirationDate ≤ threeDaysFromNow }

/-- The scheduler's inline offset computation
`Math.ceil((expirationDate.getTime() - today.getTime()) / (1000 * 60 * 60 * 24))`,
where `expirationDate` has been reset to midnight and `today` is the run's
midnight-normalized current date. -/
def itemOffset (today : Int) (item : FoodItem) : Int :=
  ceilDiv (setMidnight item.expirationDate - today) msPerDay

/-- The observable state of one `checkAndSendExpirationNotifications` run:
the `NotificationLog` table, the trace of `sendPushNotification` calls (their
payloads, and the `(foodItemId, type)` pair of each call), the trace of items
the inner loop iterated over, and the uncaught storage error, if any, that
aborted the run. -/
structure RunState where
  log : List LogEntry
  sent : List ExpoNotification
  dispatched : List LogEntry
  examined : List Nat
  errored : Option String
  deriving Repr, DecidableEq

/-- One iteration of the scheduler's inner `for (const item of user.foodItems)`
loop.  `concurrent id t` gives the rows an overlapping run has inserted into
the shared table between this run's `findUnique` check and its `create` for
the pair `(id, t)`; for a solo run it is `noRace` (always `[]`).  An error
already recorded in `st.errored` models an exception in flight: no further
iteration runs. -/
def processItem (outcomes : Nat → String → GatewayOutcome) (today : Int)
    (pushToken : String) (concurrent : Nat → String → List LogEntry)
    (st : RunState) (item : FoodItem) : RunState :=
  match st.errored with
  | some _ => st
  | none =>
    let daysUntilExpiration := itemOffset today item
    let st1 := { st with examined := st.examined ++ [item.id] }
    match selectNotification daysUntilExpiration item.name with
    | none => st1
    | some (notificationType, title, body) =>
      match notificationLogFindUnique st.log item.id notificationType with
      | some _ => st1
      | none =>
        let notification : ExpoNotification := ⟨pushToken, title, body, item.id⟩
        let _ := sendPushNotification (outcomes item.id notificationType) notification
        let st2 := { st1 with sent := st1.sent ++ [notification],
                              dispatched :=
                                st1.dispatched ++ [(⟨item.id, notificationType⟩ : LogEntry)] }
        match notificationLogCreate (st.log ++ concurrent item.id notificationType)
            item.id notificationType with
        | .ok newLog => { st2 with log := newLog }
        | .error e => { st2 with errored := some e }

/-- One iteration of the outer `for (const user of users)` loop, including the
`if (!user.pushToken) continue;` guard. -/
def processUser (outcomes : Nat → String → GatewayOutcome) (today : Int)
    (concurrent : Nat → String → List LogEntry)
    (st : RunState) (user : User) : RunState :=
  match user.pushToken with
  | none => st
  | some pushToken => user.foodItems.foldl (processItem outcomes today pushToken concurrent) st

/-- `checkAndSendExpirationNotifications`, parameterized by the gateway's
behaviour (`outcomes`) and by the rows an overlapping run inserts inside each
check/create window (`concurrent`).  `now` is the wall-clock instant; `users`
and `log` the stored tables. -/
def checkAndSendExpirationNotificationsWith (outcomes : Nat → String → GatewayOutcome)
    (concurrent : Nat → String → List LogEntry)
    (now : Int) (users : List User) (log : List LogEntry) : RunState :=
  let today := setMidnight now
  let threeDaysFromNow := today + 3 * msPerDay
  let eligibleUsers := findUsersWithExpiringItems today threeDaysFromNow users
  eligibleUsers.foldl (processUser outcomes today concurrent)
    { log := log, sent := [], dispatched := [], examined := [], errored := none }

/-- No overlapping run: every check/create window sees no concurrent insert. -/
def noRace : Nat → String → List LogEntry := fun _ _ => []

/-- A solo `checkAndSendExpirationNotifications` run. -/
def checkAndSendExpirationNotifications (outcomes : Nat → String → GatewayOutcome)
    (now : Int) (users : List User) (log : List LogEntry) : RunState :=
  checkAndSendExpirationNotificationsWith outcomes noRace now users log

/-- What the run's caller (`triggerNotificationCheck`, the cron wrapper, the
`/api/notifications/trigger` route) receives: the function's `Promise<void>`
either rejects with an uncaught error or resolves carrying no value. -/
def runReport (st : RunState) : Except String Unit :=
  match st.errored with
  | some e => .error e
  | none => .ok ()

/-- Number of `NotificationLog` rows with the given composite key. -/
def countLogEntries (log : List LogEntry) (foodItemId : Nat) (type : String) : Nat :=
  (log.filter fun e => e.foodItemId == foodItemId && e.type == type).length

/-- The item ids produced by the eligibility query, in iteration order:
items of a user with a push token whose expiration instant lies in
`[today, today + 3 days]`. -/
def eligibleItemIds (today : Int) (users : List User) : List Nat :=
  ((findUsersWithExpiringItems today (today + 3 * msPerDay) users).map
    fun u => u.foodItems.map (·.id)).flatten

/-- `n` consecutive solo runs against the same `now` and `users`, threading the
log and accumulating the dispatch traces. -/
def iterateRuns (outcomes : Nat → String → GatewayOutcome) (now : Int)
    (users : List User) (log : List LogEntry) : Nat → RunState
  | 0 => { log := log, sent := [], dispatched := [], examined := [], errored := none }
  | n + 1 =>
    let st := iterateRuns outcomes now users log n
    let st' := checkAndSendExpirationNotifications outcomes now users st.log
    { log := st'.log, sent := st.sent ++ st'.sent,
      dispatched := st.dispatched ++ st'.dispatched,
      examined := st.examined ++ st'.examined, errored := st'.errored }

/-- Log states reachable through the storage layer's constrained insert,
starting from the empty table. -/
inductive LogReachable : List LogEntry → Prop where
  | init : LogReachable []
  | create (log : List LogEntry) (foodItemId : Nat) (type : String)
      (log' : List LogEntry) : LogReachable log →
      notificationLogCreate log foodItemId type = .ok log' → LogReachable log'

/-- The pair `(foodItemId, t)` is due on day `now` in `users`: some user holds
a push token and owns an item with this id whose expiration instant lies inside
the query window and whose midnight-normalized day offset selects threshold
kind `t`. -/
def DuePair (now : Int) (users : List User) (foodItemId : Nat) (t : String) : Prop :=
  ∃ u ∈ users, ∃ pt, u.pushToken = some pt ∧ ∃ item ∈ u.foodItems,
    item.id = foodItemId ∧
    setMidnight now ≤ item.expirationDate ∧
    item.expirationDate ≤ setMidnight now + 3 * msPerDay ∧
    ∃ ti b, selectNotification (calculateDaysUntilExpiration item.expirationDate now)
      item.name = some (t, ti, b)

/-! Concrete scenarios used to exercise the model.  `now = 0` is midnight of
epoch day zero; an item with `expirationDate = k * msPerDay` is `k` days from
expiration. -/

/-- A gateway that accepts every dispatch. -/
def outcomesAllOk : Nat → String → GatewayOutcome := fun _ _ => .ok

/-- A gateway that answers every dispatch with a non-OK HTTP response. -/
def outcomesAllFail : Nat → String → GatewayOutcome := fun _ _ => .httpError "500"

/-- A gateway where only the dispatch for item 2 fails (rejected fetch). -/
def outcomesFailSecond : Nat → String → GatewayOutcome :=
  fun foodItemId _ => if foodItemId = 2 then .networkError "down" else .ok

/-- One registered user owning one item that expires today. -/
def userMilk : User := ⟨1, some "tok", [⟨1, "Milk", 0⟩]⟩

/-- One registered user owning one item that expires tomorrow. -/
def userOneDay : User := ⟨1, some "tok", [⟨1, "Milk", msPerDay⟩]⟩

/-- One registered user owning three items at offsets 0, 1 and 3. -/
def userThree : User := ⟨1, some "tok",
  [⟨1, "Milk", 0⟩, ⟨2, "Eggs", msPerDay⟩, ⟨3, "Ham", 3 * msPerDay⟩]⟩

/-- An overlapping run that inserts the pair (1, expiry_day) inside this run's
check/create window for that same pair. -/
def raceOnMilk : Nat → String → List LogEntry :=
  fun foodItemId t =>
    if foodItemId = 1 && t = "expiry_day" then [⟨1, "expiry_day"⟩] else []

/-! ### Basic facts about the storage primitives -/

theorem msPerDay_pos : 0 < msPerDay := by decide

theorem entry_matches (e : LogEntry) (foodItemId : Nat) (type : String) :
    (e.foodItemId == foodItemId && e.type == type) = true ↔ e = ⟨foodItemId, type⟩ := by
  cases e with
  | mk i t =>
    simp only [Bool.and_eq_true, beq_iff_eq, LogEntry.mk.injEq]

theorem findUnique_eq_none (log : List LogEntry) (foodItemId : Nat) (type : String) :
    notificationLogFindUnique log foodItemId type = none ↔
      (⟨foodItemId, type⟩ : LogEntry) ∉ log := by
  unfold notificationLogFindUnique
  rw [List.find?_eq_none]
  constructor
  · intro h hmem
    exact h _ hmem ((entry_matches _ _ _).mpr rfl)
  · intro h e he hp
    exact h (((entry_matches e _ _).mp hp) ▸ he)

theorem create_eq (log : List LogEntry) (foodItemId : Nat) (type : String) :
    notificationLogCreate log foodItemId type =
      if (⟨foodItemId, type⟩ : LogEntry) ∈ log then .error "P2002"
      else .ok (log ++ [⟨foodItemId, type⟩]) := by
  unfold notificationLogCreate
  by_cases hmem : (⟨foodItemId, type⟩ : LogEntry) ∈ log
  · rw [if_pos hmem, if_pos]
    rw [List.any_eq_true]
    exact ⟨_, hmem, (entry_matches _ _ _).mpr rfl⟩
  · rw [if_neg hmem, if_neg]
    rw [List.any_eq_true]
    rintro ⟨e, he, hp⟩
    exact hmem (((entry_matches e _ _).mp hp) ▸ he)

theorem countLogEntries_eq_count (log : List LogEntry) (foodItemId : Nat) (type : String) :
    countLogEntries log foodItemId type = log.count ⟨foodItemId, type⟩ := by
  unfold countLogEntries
  rw [List.count, List.countP_eq_length_filter]
  congr 1
  apply List.filter_congr
  intro e _
  rw [Bool.eq_iff_iff, entry_matches, beq_iff_eq]

/-! ### Case analysis of one inner-loop iteration -/

theorem processItem_errored {st : RunState} {e : String}
    (o : Nat → String → GatewayOutcome) (today : Int) (pushToken : String)
    (concurrent : Nat → String → List LogEntry) (item : FoodItem)
    (h : st.errored = some e) :
    processItem o today pushToken concurrent st item = st := by
  unfold processItem
  rw [h]

theorem processItem_skip_none {st : RunState}
    (o : Nat → String → GatewayOutcome) (today : Int) (pushToken : String)
    (concurrent : Nat → String → List LogEntry) (item : FoodItem)
    (h : st.errored = none)
    (hsel : selectNotification (itemOffset today item) item.name = none) :
    processItem o today pushToken concurrent st item =
      { st with examined := st.examined ++ [item.id] } := by
  unfold processItem
  rw [h]
  simp only [hsel]

theorem processItem_skip_found {st : RunState} {t ti b : String}
    (o : Nat → String → GatewayOutcome) (today : Int) (pushToken : String)
    (concurrent : Nat → String → List LogEntry) (item : FoodItem)
    (h : st.errored = none)
    (hsel : selectNotification (itemOffset today item) item.name = some (t, ti, b))
    (hmem : (⟨item.id, t⟩ : LogEntry) ∈ st.log) :
    processItem o today pushToken concurrent st item =
      { st with examined := st.examined ++ [item.id] } := by
  unfold processItem
  rw [h]
  simp only [hsel]
  rcases hfind : notificationLogFindUnique st.log item.id t with _ | e
  · exact absurd hmem ((findUnique_eq_none _ _ _).mp hfind)
  · rfl

theorem processItem_dispatch {st : RunState} {t ti b : String}
    (o : Nat → String → GatewayOutcome) (today : Int) (pushToken : String)
    (item : FoodItem)
    (h : st.errored = none)
    (hsel : selectNotification (itemOffset today item) item.name = some (t, ti, b))
    (hmem : (⟨item.id, t⟩ : LogEntry) ∉ st.log) :
    processItem o today pushToken noRace st item =
      { log := st.log ++ [⟨item.id, t⟩],
        sent := st.sent ++ [⟨pushToken, ti, b, item.id⟩],
        dispatched := st.dispatched ++ [⟨item.id, t⟩],
        examined := st.examined ++ [item.id],
        errored := none } := by
  unfold processItem
  rw [h]
  simp only [hsel]
  rw [(findUnique_eq_none st.log item.id t).mpr hmem]
  simp only [noRace, List.append_nil, create_eq, if_neg hmem]

/-- Racy variant of the dispatch branch: the pair is absent at `findUnique`
time but present by `create` time because an overlapping run inserted it.  The
unique-constraint error is recorded; the scheduler has no handler for it. -/
theorem processItem_dispatch_race {st : RunState} {t ti b : String}
    (o : Nat → String → GatewayOutcome) (today : Int) (pushToken : String)
    (concurrent : Nat → String → List LogEntry) (item : FoodItem)
    (h : st.errored = none)
    (hsel : selectNotification (itemOffset today item) item.name = some (t, ti, b))
    (hmem : (⟨item.id, t⟩ : LogEntry) ∉ st.log)
    (hconc : (⟨item.id, t⟩ : LogEntry) ∈ st.log ++ concurrent item.id t) :
    processItem o today pushToken concurrent st item =
      { log := st.log,
        sent := st.sent ++ [⟨pushToken, ti, b, item.id⟩],
        dispatched := st.dispatched ++ [⟨item.id, t⟩],
        examined := st.examined ++ [item.id],
        errored := some "P2002" } := by
  unfold processItem
  rw [h]
  simp only [hsel]
  rw [(findUnique_eq_none st.log item.id t).mpr hmem]
  simp only [create_eq, if_pos hconc]

/-- Exhaustive description of one solo-run inner-loop iteration: either the
item is skipped (and any matching threshold was already logged), or its pair
is dispatched and appended to the log. -/
theorem processItem_cases (o : Nat → String → GatewayOutcome) (today : Int)
    (pushToken : String) (st : RunState) (item : FoodItem)
    (h : st.errored = none) :
    (processItem o today pushToken noRace st item =
        { st with examined := st.examined ++ [item.id] } ∧
      ∀ t ti b, selectNotification (itemOffset today item) item.name = some (t, ti, b) →
        (⟨item.id, t⟩ : LogEntry) ∈ st.log) ∨
    (∃ t ti b, selectNotification (itemOffset today item) item.name = some (t, ti, b) ∧
      (⟨item.id, t⟩ : LogEntry) ∉ st.log ∧
      processItem o today pushToken noRace st item =
        { log := st.log ++ [⟨item.id, t⟩],
          sent := st.sent ++ [⟨pushToken, ti, b, item.id⟩],
          dispatched := st.dispatched ++ [⟨item.id, t⟩],
          examined := st.examined ++ [item.id],
          errored := none }) := by
  rcases hsel : selectNotification (itemOffset today item) item.name with _ | ⟨t, ti, b⟩
  · left
    refine ⟨processItem_skip_none o today pushToken noRace item h hsel, ?_⟩
    intro t ti b hsel'
    cases hsel'
  · by_cases hmem : (⟨item.id, t⟩ : LogEntry) ∈ st.log
    · left
      refine ⟨processItem_skip_found o today pushToken noRace item h hsel hmem, ?_⟩
      intro t' ti' b' hsel'
      cases hsel'
      exact hmem
    · right
      exact ⟨t, ti, b, rfl, hmem, processItem_dispatch o today pushToken item h hsel hmem⟩

/-! ### The inner `for (const item of user.foodItems)` loop -/

theorem foldl_items_errored (o : Nat → String → GatewayOutcome) (today : Int)
    (pushToken : String) (concurrent : Nat → String → List LogEntry) :
    ∀ (items : List FoodItem) (st : RunState) (e : String), st.errored = some e →
      items.foldl (processItem o today pushToken concurrent) st = st := by
  intro items
  induction items with
  | nil => intro st e _; rfl
  | cons a l ih =>
    intro st e h
    rw [List.foldl_cons, processItem_errored o today pushToken concurrent a h]
    exact ih st e h

theorem foldl_items_errored_none (o : Nat → String → GatewayOutcome) (today : Int)
    (pushToken : String) :
    ∀ (items : List FoodItem) (st : RunState), st.errored = none →
      (items.foldl (processItem o today pushToken noRace) st).errored = none := by
  intro items
  induction items with
  | nil => intro st h; exact h
  | cons a l ih =>
    intro st h
    rw [List.foldl_cons]
    rcases processItem_cases o today pushToken st a h with ⟨heq, _⟩ | ⟨t, ti, b, _, _, heq⟩ <;>
      rw [heq] <;> [exact ih _ h; exact ih _ rfl]

theorem foldl_items_log_mono (o : Nat → String → GatewayOutcome) (today : Int)
    (pushToken : String) :
    ∀ (items : List FoodItem) (st : RunState) (e : LogEntry), e ∈ st.log →
      e ∈ (items.foldl (processItem o today pushToken noRace) st).log := by
  intro items
  induction items with
  | nil => intro st e he; exact he
  | cons a l ih =>
    intro st e he
    rw [List.foldl_cons]
    rcases herr : st.errored with _ | err
    · rcases processItem_cases o today pushToken st a herr with ⟨heq, _⟩ | ⟨t, ti, b, _, _, heq⟩
      · rw [heq]; exact ih _ e he
      · rw [heq]; exact ih _ e (List.mem_append_left _ he)
    · rw [processItem_errored o today pushToken noRace a herr]
      exact ih st e he

theorem foldl_items_examined (o : Nat → String → GatewayOutcome) (today : Int)
    (pushToken : String) :
    ∀ (items : List FoodItem) (st : RunState), st.errored = none →
      (items.foldl (processItem o today pushToken noRace) st).examined =
        st.examined ++ items.map (·.id) := by
  intro items
  induction items with
  | nil => intro st _; simp
  | cons a l ih =>
    intro st h
    rw [List.foldl_cons]
    rcases processItem_cases o today pushToken st a h with ⟨heq, _⟩ | ⟨t, ti, b, _, _, heq⟩ <;>
      rw [heq, ih] <;> simp [h]

theorem foldl_items_logged (o : Nat → String → GatewayOutcome) (today : Int)
    (pushToken : String) :
    ∀ (items : List FoodItem) (st : RunState), st.errored = none →
      ∀ item ∈ items, ∀ t ti b,
        selectNotification (itemOffset today item) item.name = some (t, ti, b) →
        (⟨item.id, t⟩ : LogEntry) ∈
          (items.foldl (processItem o today pushToken noRace) st).log := by
  intro items
  induction items with
  | nil => intro st _ item hmem; cases hmem
  | cons a l ih =>
    intro st h item hmem t ti b hsel
    rw [List.foldl_cons]
    rcases List.mem_cons.mp hmem with rfl | hmem'
    · rcases processItem_cases o today pushToken st item h with ⟨heq, hlogged⟩ |
        ⟨t', ti', b', hsel', hnot, heq⟩
      · rw [heq]
        exact foldl_items_log_mono o today pushToken l _ _ (hlogged t ti b hsel)
      · rw [heq]
        rw [hsel'] at hsel
        cases hsel
        exact foldl_items_log_mono o today pushToken l _ _
          (List.mem_append_right _ (List.mem_singleton.mpr rfl))
    · rcases processItem_cases o today pushToken st a h with ⟨heq, _⟩ | ⟨t', ti', b', _, _, heq⟩ <;>
        rw [heq] <;> refine ih _ ?_ item hmem' t ti b hsel <;> [exact h; rfl]

theorem foldl_items_noop (o : Nat → String → GatewayOutcome) (today : Int)
    (pushToken : String) :
    ∀ (items : List FoodItem) (st : RunState), st.errored = none →
      (∀ item ∈ items, ∀ t ti b,
        selectNotification (itemOffset today item) item.name = some (t, ti, b) →
        (⟨item.id, t⟩ : LogEntry) ∈ st.log) →
      items.foldl (processItem o today pushToken noRace) st =
        { st with examined := st.examined ++ items.map (·.id) } := by
  intro items
  induction items with
  | nil => intro st _ _; simp
  | cons a l ih =>
    intro st h hall
    rw [List.foldl_cons]
    rcases processItem_cases o today pushToken st a h with ⟨heq, _⟩ |
      ⟨t, ti, b, hsel, hnot, heq⟩
    · rw [heq, ih]
      · simp
      · exact h
      · exact fun item hm => hall item (List.mem_cons_of_mem a hm)
    · exact absurd (hall a (List.mem_cons_self a l) t ti b hsel) hnot

theorem foldl_items_count_log (o : Nat → String → GatewayOutcome) (today : Int)
    (pushToken : String) :
    ∀ (items : List FoodItem) (st : RunState) (p : LogEntry), st.errored = none →
      (items.foldl (processItem o today pushToken noRace) st).log.count p ≤
        max (st.log.count p) 1 := by
  intro items
  induction items with
  | nil => intro st p _; exact le_max_left _ _
  | cons a l ih =>
    intro st p h
    rw [List.foldl_cons]
    rcases processItem_cases o today pushToken st a h with ⟨heq, _⟩ |
      ⟨t, ti, b, hsel, hnot, heq⟩
    · rw [heq]; exact ih _ p h
    · rw [heq]
      refine le_trans (ih _ p rfl) ?_
      by_cases hpq : p = (⟨a.id, t⟩ : LogEntry)
      · rw [hpq, List.count_append, List.count_eq_zero.mpr hnot, List.count_singleton]
        simp
      · rw [List.count_append]
        have h0 : List.count p [(⟨a.id, t⟩ : LogEntry)] = 0 := by
          rw [List.count_eq_zero, List.mem_singleton]
          exact hpq
        rw [h0]
        simp

theorem foldl_items_count_dispatched (o : Nat → String → GatewayOutcome) (today : Int)
    (pushToken : String) :
    ∀ (items : List FoodItem) (st : RunState) (p : LogEntry), st.errored = none →
      (items.foldl (processItem o today pushToken noRace) st).dispatched.count p +
        (if p ∈ (items.foldl (processItem o today pushToken noRace) st).log then 0 else 1) ≤
      st.dispatched.count p + (if p ∈ st.log then 0 else 1) := by
  intro items
  induction items with
  | nil => intro st p _; exact le_rfl
  | cons a l ih =>
    intro st p h
    rw [List.foldl_cons]
    rcases processItem_cases o today pushToken st a h with ⟨heq, _⟩ |
      ⟨t, ti, b, hsel, hnot, heq⟩
    · rw [heq]; exact ih _ p h
    · rw [heq]
      refine le_trans (ih _ p rfl) ?_
      by_cases hpq : p = (⟨a.id, t⟩ : LogEntry)
      · have hmem' : p ∈ st.log ++ [(⟨a.id, t⟩ : LogEntry)] :=
          List.mem_append_right _ (List.mem_singleton.mpr hpq)
        rw [if_pos hmem', List.count_append, hpq, if_neg hnot, List.count_singleton]
        simp
      · have hcnt : List.count p [(⟨a.id, t⟩ : LogEntry)] = 0 := by
          rw [List.count_eq_zero, List.mem_singleton]
          exact hpq
        have hmemiff : p ∈ st.log ++ [(⟨a.id, t⟩ : LogEntry)] ↔ p ∈ st.log := by
          simp [List.mem_append, hpq]
        rw [List.count_append, hcnt]
        by_cases hp : p ∈ st.log
        · rw [if_pos (hmemiff.mpr hp), if_pos hp]
        · rw [if_neg (fun hx => hp (hmemiff.mp hx)), if_neg hp]

theorem foldl_items_sent_src (o : Nat → String → GatewayOutcome) (today : Int)
    (pushToken : String) :
    ∀ (items : List FoodItem) (st : RunState) (nf : ExpoNotification),
      nf ∈ (items.foldl (processItem o today pushToken noRace) st).sent →
      st.errored = none →
        nf ∈ st.sent ∨ ∃ item ∈ items, ∃ t ti b,
          selectNotification (itemOffset today item) item.name = some (t, ti, b) ∧
          nf = ⟨pushToken, ti, b, item.id⟩ := by
  intro items
  induction items with
  | nil => intro st nf hnf _; exact Or.inl hnf
  | cons a l ih =>
    intro st nf hnf h
    rw [List.foldl_cons] at hnf
    rcases processItem_cases o today pushToken st a h with ⟨heq, _⟩ |
      ⟨t, ti, b, hsel, hnot, heq⟩
    · rw [heq] at hnf
      rcases ih _ nf hnf h with hin | ⟨item, hm, rest⟩
      · exact Or.inl hin
      · exact Or.inr ⟨item, List.mem_cons_of_mem a hm, rest⟩
    · rw [heq] at hnf
      rcases ih _ nf hnf rfl with hin | ⟨item, hm, rest⟩
      · rcases List.mem_append.mp hin with hin' | hone
        · exact Or.inl hin'
        · exact Or.inr ⟨a, List.mem_cons_self a l,
            t, ti, b, hsel, List.mem_singleton.mp hone⟩
      · exact Or.inr ⟨item, List.mem_cons_of_mem a hm, rest⟩

theorem foldl_items_dispatched_src (o : Nat → String → GatewayOutcome) (today : Int)
    (pushToken : String) :
    ∀ (items : List FoodItem) (st : RunState) (d : LogEntry),
      d ∈ (items.foldl (processItem o today pushToken noRace) st).dispatched →
      st.errored = none →
        d ∈ st.dispatched ∨ ∃ item ∈ items, ∃ t ti b,
          selectNotification (itemOffset today item) item.name = some (t, ti, b) ∧
          d = ⟨item.id, t⟩ := by
  intro items
  induction items with
  | nil => intro st d hd _; exact Or.inl hd
  | cons a l ih =>
    intro st d hd h
    rw [List.foldl_cons] at hd
    rcases processItem_cases o today pushToken st a h with ⟨heq, _⟩ |
      ⟨t, ti, b, hsel, hnot, heq⟩
    · rw [heq] at hd
      rcases ih _ d hd h with hin | ⟨item, hm, rest⟩
      · exact Or.inl hin
      · exact Or.inr ⟨item, List.mem_cons_of_mem a hm, rest⟩
    · rw [heq] at hd
      rcases ih _ d hd rfl with hin | ⟨item, hm, rest⟩
      · rcases List.mem_append.mp hin with hin' | hone
        · exact Or.inl hin'
        · exact Or.inr ⟨a, List.mem_cons_self a l,
            t, ti, b, hsel, List.mem_singleton.mp hone⟩
      · exact Or.inr ⟨item, List.mem_cons_of_mem a hm, rest⟩

theorem foldl_items_reachable (o : Nat → String → GatewayOutcome) (today : Int)
    (pushToken : String) :
    ∀ (items : List FoodItem) (st : RunState), st.errored = none →
      LogReachable st.log →
      LogReachable (items.foldl (processItem o today pushToken noRace) st).log := by
  intro items
  induction items with
  | nil => intro st _ hr; exact hr
  | cons a l ih =>
    intro st h hr
    rw [List.foldl_cons]
    rcases processItem_cases o today pushToken st a h with ⟨heq, _⟩ |
      ⟨t, ti, b, hsel, hnot, heq⟩
    · rw [heq]; exact ih _ h hr
    · rw [heq]
      refine ih _ rfl ?_
      refine LogReachable.create st.log a.id t _ hr ?_
      rw [create_eq, if_neg hnot]

/-! ### The outer `for (const user of users)` loop -/

theorem foldl_users_errored (o : Nat → String → GatewayOutcome) (today : Int)
    (concurrent : Nat → String → List LogEntry) :
    ∀ (us : List User) (st : RunState) (e : String), st.errored = some e →
      us.foldl (processUser o today concurrent) st = st := by
  intro us
  induction us with
  | nil => intro st e _; rfl
  | cons u l ih =>
    intro st e h
    rw [List.foldl_cons]
    have hu : processUser o today concurrent st u = st := by
      unfold processUser
      cases u.pushToken with
      | none => rfl
      | some pt => exact foldl_items_errored o today pt concurrent u.foodItems st e h
    rw [hu]
    exact ih st e h

theorem processUser_errored_none (o : Nat → String → GatewayOutcome) (today : Int)
    (st : RunState) (u : User) (h : st.errored = none) :
    (processUser o today noRace st u).errored = none := by
  unfold processUser
  cases u.pushToken with
  | none => exact h
  | some pt => exact foldl_items_errored_none o today pt u.foodItems st h

theorem foldl_users_errored_none (o : Nat → String → GatewayOutcome) (today : Int) :
    ∀ (us : List User) (st : RunState), st.errored = none →
      (us.foldl (processUser o today noRace) st).errored = none := by
  intro us
  induction us with
  | nil => intro st h; exact h
  | cons u l ih =>
    intro st h
    rw [List.foldl_cons]
    exact ih _ (processUser_errored_none o today st u h)

theorem processUser_log_mono (o : Nat → String → GatewayOutcome) (today : Int)
    (st : RunState) (u : User) {e : LogEntry} (he : e ∈ st.log) :
    e ∈ (processUser o today noRace st u).log := by
  unfold processUser
  cases u.pushToken with
  | none => exact he
  | some pt => exact foldl_items_log_mono o today pt u.foodItems st e he

theorem foldl_users_log_mono (o : Nat → String → GatewayOutcome) (today : Int) :
    ∀ (us : List User) (st : RunState) (e : LogEntry), e ∈ st.log →
      e ∈ (us.foldl (processUser o today noRace) st).log := by
  intro us
  induction us with
  | nil => intro st e he; exact he
  | cons u l ih =>
    intro st e he
    rw [List.foldl_cons]
    exact ih _ e (processUser_log_mono o today st u he)

theorem foldl_users_examined (o : Nat → String → GatewayOutcome) (today : Int) :
    ∀ (us : List User) (st : RunState), st.errored = none →
      (∀ u ∈ us, u.pushToken.isSome) →
      (us.foldl (processUser o today noRace) st).examined =
        st.examined ++ (us.map fun u => u.foodItems.map (·.id)).flatten := by
  intro us
  induction us with
  | nil => intro st _ _; simp
  | cons u l ih =>
    intro st h hall
    rw [List.foldl_cons]
    rcases Option.isSome_iff_exists.mp (hall u (List.mem_cons_self u l)) with ⟨pt, hpt⟩
    have hu : processUser o today noRace st u =
        u.foodItems.foldl (processItem o today pt noRace) st := by
      unfold processUser
      rw [hpt]
    rw [hu, ih _ (foldl_items_errored_none o today pt u.foodItems st h)
      (fun v hv => hall v (List.mem_cons_of_mem u hv)),
      foldl_items_examined o today pt u.foodItems st h]
    simp

theorem foldl_users_logged (o : Nat → String → GatewayOutcome) (today : Int) :
    ∀ (us : List User) (st : RunState), st.errored = none →
      ∀ u ∈ us, ∀ pt, u.pushToken = some pt → ∀ item ∈ u.foodItems, ∀ t ti b,
        selectNotification (itemOffset today item) item.name = some (t, ti, b) →
        (⟨item.id, t⟩ : LogEntry) ∈ (us.foldl (processUser o today noRace) st).log := by
  intro us
  induction us with
  | nil => intro st _ u hu; cases hu
  | cons v l ih =>
    intro st h u hu pt hpt item hitem t ti b hsel
    rw [List.foldl_cons]
    rcases List.mem_cons.mp hu with rfl | hu'
    · have hv : processUser o today noRace st u =
          u.foodItems.foldl (processItem o today pt noRace) st := by
        unfold processUser
        rw [hpt]
      rw [hv]
      exact foldl_users_log_mono o today l _ _
        (foldl_items_logged o today pt u.foodItems st h item hitem t ti b hsel)
    · exact ih _ (processUser_errored_none o today st v h) u hu' pt hpt item hitem t ti b hsel

theorem foldl_users_noop (o : Nat → String → GatewayOutcome) (today : Int) :
    ∀ (us : List User) (st : RunState), st.errored = none →
      (∀ u ∈ us, u.pushToken.isSome) →
      (∀ u ∈ us, ∀ item ∈ u.foodItems, ∀ t ti b,
        selectNotification (itemOffset today item) item.name = some (t, ti, b) →
        (⟨item.id, t⟩ : LogEntry) ∈ st.log) →
      us.foldl (processUser o today noRace) st =
        { st with examined :=
            st.examined ++ (us.map fun u => u.foodItems.map (·.id)).flatten } := by
  intro us
  induction us with
  | nil => intro st _ _ _; simp
  | cons u l ih =>
    intro st h htok hall
    rw [List.foldl_cons]
    rcases Option.isSome_iff_exists.mp (htok u (List.mem_cons_self u l)) with ⟨pt, hpt⟩
    have hu : processUser o today noRace st u =
        u.foodItems.foldl (processItem o today pt noRace) st := by
      unfold processUser
      rw [hpt]
    rw [hu, foldl_items_noop o today pt u.foodItems st h
      (fun item hm => hall u (List.mem_cons_self u l) item hm), ih]
    · simp
    · exact h
    · exact fun v hv => htok v (List.mem_cons_of_mem u hv)
    · exact fun v hv item hm => hall v (List.mem_cons_of_mem u hv) item hm

theorem foldl_users_count_log (o : Nat → String → GatewayOutcome) (today : Int) :
    ∀ (us : List User) (st : RunState) (p : LogEntry), st.errored = none →
      (us.foldl (processUser o today noRace) st).log.count p ≤
        max (st.log.count p) 1 := by
  intro us
  induction us with
  | nil => intro st p _; exact le_max_left _ _
  | cons u l ih =>
    intro st p h
    rw [List.foldl_cons]
    have hle := ih (processUser o today noRace st u) p (processUser_errored_none o today st u h)
    refine le_trans hle ?_
    have hu : (processUser o today noRace st u).log.count p ≤ max (st.log.count p) 1 := by
      unfold processUser
      cases u.pushToken with
      | none => exact le_max_left _ _
      | some pt => exact foldl_items_count_log o today pt u.foodItems st p h
    exact max_le (le_trans hu le_rfl) (le_max_right _ _)

theorem processUser_count_dispatched (o : Nat → String → GatewayOutcome) (today : Int)
    (st : RunState) (u : User) (p : LogEntry) (h : st.errored = none) :
    (processUser o today noRace st u).dispatched.count p +
        (if p ∈ (processUser o today noRace st u).log then 0 else 1) ≤
      st.dispatched.count p + (if p ∈ st.log then 0 else 1) := by
  unfold processUser
  cases u.pushToken with
  | none => exact le_rfl
  | some pt => exact foldl_items_count_dispatched o today pt u.foodItems st p h

theorem foldl_users_count_dispatched (o : Nat → String → GatewayOutcome) (today : Int) :
    ∀ (us : List User) (st : RunState) (p : LogEntry), st.errored = none →
      (us.foldl (processUser o today noRace) st).dispatched.count p +
        (if p ∈ (us.foldl (processUser o today noRace) st).log then 0 else 1) ≤
      st.dispatched.count p + (if p ∈ st.log then 0 else 1) := by
  intro us
  induction us with
  | nil => intro st p _; exact le_rfl
  | cons u l ih =>
    intro st p h
    rw [List.foldl_cons]
    exact le_trans (ih _ p (processUser_errored_none o today st u h))
      (processUser_count_dispatched o today st u p h)

theorem foldl_users_sent_src (o : Nat → String → GatewayOutcome) (today : Int) :
    ∀ (us : List User) (st : RunState) (nf : ExpoNotification),
      nf ∈ (us.foldl (processUser o today noRace) st).sent →
      st.errored = none →
        nf ∈ st.sent ∨ ∃ u ∈ us, ∃ pt, u.pushToken = some pt ∧
          ∃ item ∈ u.foodItems, ∃ t ti b,
            selectNotification (itemOffset today item) item.name = some (t, ti, b) ∧
            nf = ⟨pt, ti, b, item.id⟩ := by
  intro us
  induction us with
  | nil => intro st nf hnf _; exact Or.inl hnf
  | cons u l ih =>
    intro st nf hnf h
    rw [List.foldl_cons] at hnf
    rcases ih _ nf hnf (processUser_errored_none o today st u h) with hin | ⟨v, hv, rest⟩
    · unfold processUser at hin
      rcases hpt : u.pushToken with _ | pt
      · rw [hpt] at hin
        exact Or.inl hin
      · rw [hpt] at hin
        rcases foldl_items_sent_src o today pt u.foodItems st nf hin h with hin' |
          ⟨item, hitem, t, ti, b, hsel, hnf'⟩
        · exact Or.inl hin'
        · exact Or.inr ⟨u, List.mem_cons_self u l, pt, hpt, item, hitem, t, ti, b, hsel, hnf'⟩
    · exact Or.inr ⟨v, List.mem_cons_of_mem u hv, rest⟩

theorem foldl_users_dispatched_src (o : Nat → String → GatewayOutcome) (today : Int) :
    ∀ (us : List User) (st : RunState) (d : LogEntry),
      d ∈ (us.foldl (processUser o today noRace) st).dispatched →
      st.errored = none →
        d ∈ st.dispatched ∨ ∃ u ∈ us, ∃ pt, u.pushToken = some pt ∧
          ∃ item ∈ u.foodItems, ∃ t ti b,
            selectNotification (itemOffset today item) item.name = some (t, ti, b) ∧
            d = ⟨item.id, t⟩ := by
  intro us
  induction us with
  | nil => intro st d hd _; exact Or.inl hd
  | cons u l ih =>
    intro st d hd h
    rw [List.foldl_cons] at hd
    rcases ih _ d hd (processUser_errored_none o today st u h) with hin | ⟨v, hv, rest⟩
    · unfold processUser at hin
      rcases hpt : u.pushToken with _ | pt
      · rw [hpt] at hin
        exact Or.inl hin
      · rw [hpt] at hin
        rcases foldl_items_dispatched_src o today pt u.foodItems st d hin h with hin' |
          ⟨item, hitem, t, ti, b, hsel, hd'⟩
        · exact Or.inl hin'
        · exact Or.inr ⟨u, List.mem_cons_self u l, pt, hpt, item, hitem, t, ti, b, hsel, hd'⟩
    · exact Or.inr ⟨v, List.mem_cons_of_mem u hv, rest⟩

theorem foldl_users_reachable (o : Nat → String → GatewayOutcome) (today : Int) :
    ∀ (us : List User) (st : RunState), st.errored = none →
      LogReachable st.log →
      LogReachable (us.foldl (processUser o today noRace) st).log := by
  intro us
  induction us with
  | nil => intro st _ hr; exact hr
  | cons u l ih =>
    intro st h hr
    rw [List.foldl_cons]
    refine ih _ (processUser_errored_none o today st u h) ?_
    unfold processUser
    cases u.pushToken with
    | none => exact hr
    | some pt => exact foldl_items_reachable o today pt u.foodItems st h hr

/-! ### Whole-run lemmas -/

theorem run_eq (o : Nat → String → GatewayOutcome) (now : Int) (users : List User)
    (log : List LogEntry) :
    checkAndSendExpirationNotifications o now users log =
      (findUsersWithExpiringItems (setMidnight now) (setMidnight now + 3 * msPerDay)
          users).foldl (processUser o (setMidnight now) noRace)
        { log := log, sent := [], dispatched := [], examined := [], errored := none } := rfl

theorem mem_findUsers {u' : User} {today threeDaysFromNow : Int} {users : List User} :
    u' ∈ findUsersWithExpiringItems today threeDaysFromNow users ↔
      ∃ u ∈ users, u.pushToken.isSome ∧
        u' = { u with foodItems := u.foodItems.filter fun item =>
          today ≤ item.expirationDate && item.expirationDate ≤ threeDaysFromNow } := by
  unfold findUsersWithExpiringItems
  rw [List.mem_map]
  constructor
  · rintro ⟨u, hu, rfl⟩
    rcases List.mem_filter.mp hu with ⟨hmem, htok⟩
    exact ⟨u, hmem, htok, rfl⟩
  · rintro ⟨u, hmem, htok, rfl⟩
    exact ⟨u, List.mem_filter.mpr ⟨hmem, htok⟩, rfl⟩

theorem findUsers_token {u' : User} {today threeDaysFromNow : Int} {users : List User}
    (h : u' ∈ findUsersWithExpiringItems today threeDaysFromNow users) :
    u'.pushToken.isSome := by
  rcases mem_findUsers.mp h with ⟨u, _, htok, rfl⟩
  exact htok

theorem calc_eq_itemOffset (now : Int) (item : FoodItem) :
    calculateDaysUntilExpiration item.expirationDate now =
      itemOffset (setMidnight now) item := rfl

theorem run_errored_none (o : Nat → String → GatewayOutcome) (now : Int)
    (users : List User) (log : List LogEntry) :
    (checkAndSendExpirationNotifications o now users log).errored = none := by
  rw [run_eq]
  exact foldl_users_errored_none o (setMidnight now) _ _ rfl

theorem run_log_mono (o : Nat → String → GatewayOutcome) (now : Int)
    (users : List User) (log : List LogEntry) {e : LogEntry} (he : e ∈ log) :
    e ∈ (checkAndSendExpirationNotifications o now users log).log := by
  rw [run_eq]
  exact foldl_users_log_mono o (setMidnight now) _ _ e he

theorem run_all_logged (o : Nat → String → GatewayOutcome) (now : Int)
    (users : List User) (log : List LogEntry) (foodItemId : Nat) (t : String)
    (hdue : DuePair now users foodItemId t) :
    (⟨foodItemId, t⟩ : LogEntry) ∈ (checkAndSendExpirationNotifications o now users log).log := by
  rcases hdue with ⟨u, hu, pt, hpt, item, hitem, hid, hge, hle, ti, b, hsel⟩
  rw [run_eq]
  have hu' : ({ u with foodItems := u.foodItems.filter (fun it =>
      setMidnight now ≤ it.expirationDate &&
        it.expirationDate ≤ setMidnight now + 3 * msPerDay) } : User) ∈
      findUsersWithExpiringItems (setMidnight now) (setMidnight now + 3 * msPerDay) users :=
    mem_findUsers.mpr ⟨u, hu, by rw [hpt]; rfl, rfl⟩
  have hitem' : item ∈ u.foodItems.filter (fun it =>
      setMidnight now ≤ it.expirationDate &&
        it.expirationDate ≤ setMidnight now + 3 * msPerDay) :=
    List.mem_filter.mpr ⟨hitem, by simp [hge, hle]⟩
  rw [calc_eq_itemOffset] at hsel
  have := foldl_users_logged o (setMidnight now) _
    { log := log, sent := [], dispatched := [], examined := [], errored := none }
    rfl _ hu' pt hpt item hitem' t ti b hsel
  rw [hid] at this
  exact this

theorem run_noop (o : Nat → String → GatewayOutcome) (now : Int)
    (users : List User) (log : List LogEntry)
    (hall : ∀ foodItemId t, DuePair now users foodItemId t →
      (⟨foodItemId, t⟩ : LogEntry) ∈ log) :
    checkAndSendExpirationNotifications o now users log =
      { log := log, sent := [], dispatched := [],
        examined := eligibleItemIds (setMidnight now) users, errored := none } := by
  rw [run_eq]
  rw [foldl_users_noop o (setMidnight now) _ _ rfl
    (fun u' hu' => findUsers_token hu') ?_]
  · simp [eligibleItemIds]
  · intro u' hu' item hitem t ti b hsel
    rcases mem_findUsers.mp hu' with ⟨u, hu, htok, rfl⟩
    rcases List.mem_filter.mp hitem with ⟨hmem, hwin⟩
    simp only [Bool.and_eq_true, decide_eq_true_eq] at hwin
    rcases Option.isSome_iff_exists.mp htok with ⟨pt, hpt⟩
    exact hall item.id t ⟨u, hu, pt, hpt, item, hmem, rfl,
      hwin.1, hwin.2, ti, b, by rw [calc_eq_itemOffset]; exact hsel⟩

theorem run_examined (o : Nat → String → GatewayOutcome) (now : Int)
    (users : List User) (log : List LogEntry) :
    (checkAndSendExpirationNotifications o now users log).examined =
      eligibleItemIds (setMidnight now) users := by
  rw [run_eq]
  rw [foldl_users_examined o (setMidnight now) _ _ rfl (fun u' hu' => findUsers_token hu')]
  simp [eligibleItemIds]

theorem run_count_log (o : Nat → String → GatewayOutcome) (now : Int)
    (users : List User) (log : List LogEntry) (p : LogEntry) :
    (checkAndSendExpirationNotifications o now users log).log.count p ≤
      max (log.count p) 1 := by
  rw [run_eq]
  exact foldl_users_count_log o (setMidnight now) _ _ p rfl

theorem run_count_dispatched (o : Nat → String → GatewayOutcome) (now : Int)
    (users : List User) (log : List LogEntry) (p : LogEntry) :
    (checkAndSendExpirationNotifications o now users log).dispatched.count p ≤
      if p ∈ log then 0 else 1 := by
  have h := foldl_users_count_dispatched o (setMidnight now)
    (findUsersWithExpiringItems (setMidnight now) (setMidnight now + 3 * msPerDay) users)
    { log := log, sent := [], dispatched := [], examined := [], errored := none } p rfl
  rw [← run_eq] at h
  have h2 := le_trans (Nat.le_add_right
    ((checkAndSendExpirationNotifications o now users log).dispatched.count p)
    (if p ∈ (checkAndSendExpirationNotifications o now users log).log then 0 else 1)) h
  simpa using h2

theorem run_reachable (o : Nat → String → GatewayOutcome) (now : Int)
    (users : List User) (log : List LogEntry) (hr : LogReachable log) :
    LogReachable (checkAndSendExpirationNotifications o now users log).log := by
  rw [run_eq]
  exact foldl_users_reachable o (setMidnight now) _ _ rfl hr

theorem run_sent_src (o : Nat → String → GatewayOutcome) (now : Int)
    (users : List User) (log : List LogEntry) (nf : ExpoNotification)
    (hnf : nf ∈ (checkAndSendExpirationNotifications o now users log).sent) :
    ∃ u ∈ users, ∃ pt, u.pushToken = some pt ∧ ∃ item ∈ u.foodItems,
      setMidnight now ≤ item.expirationDate ∧
      item.expirationDate ≤ setMidnight now + 3 * msPerDay ∧
      ∃ t ti b, selectNotification (calculateDaysUntilExpiration item.expirationDate now)
          item.name = some (t, ti, b) ∧
        nf = ⟨pt, ti, b, item.id⟩ := by
  rw [run_eq] at hnf
  rcases foldl_users_sent_src o (setMidnight now) _ _ nf hnf rfl with hin |
    ⟨u', hu', pt, hpt, item, hitem, t, ti, b, hsel, hnf'⟩
  · cases hin
  · rcases mem_findUsers.mp hu' with ⟨u, hu, htok, rfl⟩
    rcases List.mem_filter.mp hitem with ⟨hmem, hwin⟩
    simp only [Bool.and_eq_true, decide_eq_true_eq] at hwin
    exact ⟨u, hu, pt, hpt, item, hmem, hwin.1, hwin.2,
      t, ti, b, by rw [calc_eq_itemOffset]; exact hsel, hnf'⟩

theorem run_dispatched_src (o : Nat → String → GatewayOutcome) (now : Int)
    (users : List User) (log : List LogEntry) (d : LogEntry)
    (hd : d ∈ (checkAndSendExpirationNotifications o now users log).dispatched) :
    ∃ u ∈ users, ∃ pt, u.pushToken = some pt ∧ ∃ item ∈ u.foodItems,
      setMidnight now ≤ item.expirationDate ∧
      item.expirationDate ≤ setMidnight now + 3 * msPerDay ∧
      ∃ t ti b, selectNotification (calculateDaysUntilExpiration item.expirationDate now)
          item.name = some (t, ti, b) ∧
        d = ⟨item.id, t⟩ := by
  rw [run_eq] at hd
  rcases foldl_users_dispatched_src o (setMidnight now) _ _ d hd rfl with hin |
    ⟨u', hu', pt, hpt, item, hitem, t, ti, b, hsel, hd'⟩
  · cases hin
  · rcases mem_findUsers.mp hu' with ⟨u, hu, htok, rfl⟩
    rcases List.mem_filter.mp hitem with ⟨hmem, hwin⟩
    simp only [Bool.and_eq_true, decide_eq_true_eq] at hwin
    exact ⟨u, hu, pt, hpt, item, hmem, hwin.1, hwin.2,
      t, ti, b, by rw [calc_eq_itemOffset]; exact hsel, hd'⟩

/-- After the first completed run, further runs on the same day change
nothing: the log, the cumulative dispatch trace and the cumulative payload
trace stay those of run one. -/
theorem iterate_stable (o : Nat → String → GatewayOutcome) (now : Int)
    (users : List User) (log : List LogEntry) :
    ∀ n : Nat,
      (iterateRuns o now users log (n + 1)).log =
        (checkAndSendExpirationNotifications o now users log).log ∧
      (iterateRuns o now users log (n + 1)).sent =
        (checkAndSendExpirationNotifications o now users log).sent ∧
      (iterateRuns o now users log (n + 1)).dispatched =
        (checkAndSendExpirationNotifications o now users log).dispatched ∧
      (iterateRuns o now users log (n + 1)).errored = none := by
  intro n
  induction n with
  | zero =>
    refine ⟨rfl, ?_, ?_, ?_⟩ <;> simp [iterateRuns, run_errored_none]
  | succ n ih =>
    rcases ih with ⟨hlog, hsent, hdisp, herr⟩
    have hall : ∀ foodItemId t, DuePair now users foodItemId t →
        (⟨foodItemId, t⟩ : LogEntry) ∈ (iterateRuns o now users log (n + 1)).log := by
      intro foodItemId t hdue
      rw [hlog]
      exact run_all_logged o now users log foodItemId t hdue
    have hnoop := run_noop o now users (iterateRuns o now users log (n + 1)).log
      (fun foodItemId t hdue => hall foodItemId t hdue)
    show _ ∧ _ ∧ _ ∧ _
    rw [show iterateRuns o now users log (n + 1 + 1) =
        { log := (checkAndSendExpirationNotifications o now users
            (iterateRuns o now users log (n + 1)).log).log,
          sent := (iterateRuns o now users log (n + 1)).sent ++
            (checkAndSendExpirationNotifications o now users
              (iterateRuns o now users log (n + 1)).log).sent,
          dispatched := (iterateRuns o now users log (n + 1)).dispatched ++
            (checkAndSendExpirationNotifications o now users
              (iterateRuns o now users log (n + 1)).log).dispatched,
          examined := (iterateRuns o now users log (n + 1)).examined ++
            (checkAndSendExpirationNotifications o now users
              (iterateRuns o now users log (n + 1)).log).examined,
          errored := (checkAndSendExpirationNotifications o now users
            (iterateRuns o now users log (n + 1)).log).errored } from rfl]
    rw [hnoop]
    refine ⟨hlog, ?_, ?_, rfl⟩ <;> simp [hsent, hdisp]

/-! ### Date arithmetic -/

theorem ceilDiv_mul_cancel (k : Int) : ceilDiv (msPerDay * k) msPerDay = k := by
  unfold ceilDiv
  rw [← Int.mul_neg, Int.mul_fdiv_cancel_left _ (by decide : (msPerDay : Int) ≠ 0), neg_neg]

/-- After both instants are reset to midnight their difference is an exact
multiple of a day, so the ceiling division is the plain difference of calendar
day indices. -/
theorem calculateDays_exact (e r : Int) :
    calculateDaysUntilExpiration e r = e.fdiv msPerDay - r.fdiv msPerDay := by
  unfold calculateDaysUntilExpiration setMidnight
  rw [← mul_sub]
  exact ceilDiv_mul_cancel _

theorem mem_eligibleItemIds {today : Int} {users : List User} {foodItemId : Nat} :
    foodItemId ∈ eligibleItemIds today users ↔
      ∃ u ∈ users, u.pushToken.isSome ∧ ∃ item ∈ u.foodItems, item.id = foodItemId ∧
        today ≤ item.expirationDate ∧ item.expirationDate ≤ today + 3 * msPerDay := by
  unfold eligibleItemIds
  rw [List.mem_flatten]
  constructor
  · rintro ⟨l, hl, hid⟩
    rcases List.mem_map.mp hl with ⟨u', hu', rfl⟩
    rcases mem_findUsers.mp hu' with ⟨u, hu, htok, rfl⟩
    rcases List.mem_map.mp hid with ⟨item, hitem, rfl⟩
    rcases List.mem_filter.mp hitem with ⟨hmem, hwin⟩
    simp only [Bool.and_eq_true, decide_eq_true_eq] at hwin
    exact ⟨u, hu, htok, item, hmem, rfl, hwin.1, hwin.2⟩
  · rintro ⟨u, hu, htok, item, hitem, rfl, hge, hle⟩
    refine ⟨({ u with foodItems := u.foodItems.filter (fun it =>
        today ≤ it.expirationDate && it.expirationDate ≤ today + 3 * msPerDay) } :
        User).foodItems.map (·.id), ?_, ?_⟩
    · exact List.mem_map.mpr ⟨_, mem_findUsers.mpr ⟨u, hu, htok, rfl⟩, rfl⟩
    · exact List.mem_map.mpr ⟨item, List.mem_filter.mpr ⟨hitem, by simp [hge, hle]⟩, rfl⟩

/-! ## Claims -/

/-- C1 (code bug): the spec requires that a `NotificationLog` entry is written
only after a successful dispatch, so that a failed dispatch is retried by the
next run.  The code violates this: `sendPushNotification` swallows every
gateway failure, so with a gateway that rejects every dispatch the scheduler
still creates the log entry for the eligible pair, and a subsequent run on the
same day performs no retry (it sends nothing). -/
theorem c1_failed_dispatch_still_logs :
    (checkAndSendExpirationNotifications outcomesAllFail 0 [userMilk] []).log =
      [⟨1, "expiry_day"⟩] ∧
    (checkAndSendExpirationNotifications outcomesAllFail 0 [userMilk]
      [(⟨1, "expiry_day"⟩ : LogEntry)]).sent = [] := by
  decide

/-- C2: running the scheduler any number of times on the same current date
yields exactly one log row and at most one dispatch for a due
(item, threshold) pair that was not yet logged, and the run immediately after
a completed run is a no-op: it changes no log rows and dispatches nothing. -/
theorem c2_idempotent_runs (o : Nat → String → GatewayOutcome) (now : Int)
    (users : List User) (log : List LogEntry) (foodItemId : Nat) (t : String) (n : Nat)
    (hclean : countLogEntries log foodItemId t = 0)
    (hdue : DuePair now users foodItemId t) :
    countLogEntries (iterateRuns o now users log (n + 1)).log foodItemId t = 1 ∧
    countLogEntries (iterateRuns o now users log (n + 1)).dispatched foodItemId t ≤ 1 ∧
    checkAndSendExpirationNotifications o now users
        (iterateRuns o now users log (n + 1)).log =
      { log := (iterateRuns o now users log (n + 1)).log, sent := [], dispatched := [],
        examined := eligibleItemIds (setMidnight now) users, errored := none } := by
  obtain ⟨hlog, hsent, hdisp, herr⟩ := iterate_stable o now users log n
  rw [countLogEntries_eq_count] at hclean
  have hmem : (⟨foodItemId, t⟩ : LogEntry) ∈
      (checkAndSendExpirationNotifications o now users log).log :=
    run_all_logged o now users log foodItemId t hdue
  refine ⟨?_, ?_, ?_⟩
  · rw [countLogEntries_eq_count, hlog]
    have h1 := run_count_log o now users log ⟨foodItemId, t⟩
    rw [hclean] at h1
    simp only [Nat.zero_max] at h1
    have h2 := List.count_pos_iff.mpr hmem
    omega
  · rw [countLogEntries_eq_count, hdisp]
    have h1 := run_count_dispatched o now users log ⟨foodItemId, t⟩
    have h0 : (⟨foodItemId, t⟩ : LogEntry) ∉ log := List.count_eq_zero.mp hclean
    rw [if_neg h0] at h1
    exact h1
  · apply run_noop
    intro foodItemId' t' hdue'
    rw [hlog]
    exact run_all_logged o now users log foodItemId' t' hdue'

theorem c2_witness :
    countLogEntries (iterateRuns outcomesAllOk 0 [userMilk] [] 1).log 1 "expiry_day" = 1 ∧
    countLogEntries (iterateRuns outcomesAllOk 0 [userMilk] [] 1).dispatched 1 "expiry_day" ≤ 1 ∧
    checkAndSendExpirationNotifications outcomesAllOk 0 [userMilk]
        (iterateRuns outcomesAllOk 0 [userMilk] [] 1).log =
      { log := (iterateRuns outcomesAllOk 0 [userMilk] [] 1).log, sent := [], dispatched := [],
        examined := eligibleItemIds (setMidnight 0) [userMilk], errored := none } :=
  c2_idempotent_runs outcomesAllOk 0 [userMilk] [] 1 "expiry_day" 0 (by decide)
    ⟨userMilk, List.mem_singleton.mpr rfl, "tok", rfl, ⟨1, "Milk", 0⟩,
      List.mem_singleton.mpr rfl, rfl, by decide, by decide,
      "Food Expiring Today!", "Milk expires today. Use it before it goes bad!", by decide⟩

/-- C3: in every log state reachable through the storage layer's insert the
pair (foodItemId, type) identifies at most one row; the uniqueness is enforced
by the storage layer itself (the constrained insert refuses a duplicate pair
with `P2002` regardless of any application-level check), and scheduler runs
keep the log within the reachable states. -/
theorem c3_unique_constraint :
    (∀ log, LogReachable log → ∀ foodItemId t, countLogEntries log foodItemId t ≤ 1) ∧
    (∀ (log : List LogEntry) (foodItemId : Nat) (t : String),
      (⟨foodItemId, t⟩ : LogEntry) ∈ log →
      notificationLogCreate log foodItemId t = .error "P2002") ∧
    (∀ (o : Nat → String → GatewayOutcome) (now : Int) (users : List User)
      (log : List LogEntry), LogReachable log →
      LogReachable (checkAndSendExpirationNotifications o now users log).log) := by
  refine ⟨?_, ?_, ?_⟩
  · intro log hr foodItemId t
    rw [countLogEntries_eq_count]
    induction hr with
    | init => simp
    | create log0 foodItemId0 t0 log' hr0 hc ih =>
      rw [create_eq] at hc
      by_cases hmem : (⟨foodItemId0, t0⟩ : LogEntry) ∈ log0
      · rw [if_pos hmem] at hc
        cases hc
      · rw [if_neg hmem] at hc
        cases hc
        rw [List.count_append]
        by_cases hpq : (⟨foodItemId, t⟩ : LogEntry) = (⟨foodItemId0, t0⟩ : LogEntry)
        · rw [hpq, List.count_eq_zero.mpr hmem, List.count_singleton]
          simp
        · have h0 : List.count (⟨foodItemId, t⟩ : LogEntry)
              [(⟨foodItemId0, t0⟩ : LogEntry)] = 0 := by
            rw [List.count_eq_zero, List.mem_singleton]
            exact hpq
          rw [h0]
          simpa using ih
  · intro log foodItemId t hmem
    rw [create_eq, if_pos hmem]
  · intro o now users log hr
    exact run_reachable o now users log hr

theorem c3_witness :
    countLogEntries [(⟨1, "one_day"⟩ : LogEntry)] 1 "one_day" ≤ 1 ∧
    notificationLogCreate [(⟨1, "one_day"⟩ : LogEntry)] 1 "one_day" = .error "P2002" ∧
    LogReachable (checkAndSendExpirationNotifications outcomesAllOk 0 [userMilk] []).log :=
  ⟨c3_unique_constraint.1 [(⟨1, "one_day"⟩ : LogEntry)]
      (LogReachable.create [] 1 "one_day" _ LogReachable.init rfl) 1 "one_day",
    c3_unique_constraint.2.1 [(⟨1, "one_day"⟩ : LogEntry)] 1 "one_day"
      (List.mem_singleton.mpr rfl),
    c3_unique_constraint.2.2 outcomesAllOk 0 [userMilk] [] LogReachable.init⟩

/-- C4: a notification is attempted only at the exact day offsets 0, 1 and 3,
with kinds expiry_day, one_day and three_day; any other offset (for instance 2)
selects nothing, every dispatch of a run matches the item's exact offset, and
thresholds fire independently: an item at offset 1 whose three_day pair is
already logged still gets its one_day dispatch. -/
theorem c4_exact_day_thresholds :
    (∀ (d : Int) (name : String),
      selectNotification d name = none ↔ ¬(d = 0 ∨ d = 1 ∨ d = 3)) ∧
    (∀ name : String,
      (∃ ti b, selectNotification 0 name = some ("expiry_day", ti, b)) ∧
      (∃ ti b, selectNotification 1 name = some ("one_day", ti, b)) ∧
      (∃ ti b, selectNotification 3 name = some ("three_day", ti, b)) ∧
      selectNotification 2 name = none) ∧
    (∀ (o : Nat → String → GatewayOutcome) (now : Int) (users : List User)
      (log : List LogEntry) (d : LogEntry),
      d ∈ (checkAndSendExpirationNotifications o now users log).dispatched →
      ∃ u ∈ users, ∃ item ∈ u.foodItems, d.foodItemId = item.id ∧
        ∃ ti b, selectNotification (calculateDaysUntilExpiration item.expirationDate now)
          item.name = some (d.type, ti, b)) ∧
    (checkAndSendExpirationNotifications outcomesAllOk 0 [userOneDay]
        [(⟨1, "three_day"⟩ : LogEntry)]).dispatched = [⟨1, "one_day"⟩] := by
  refine ⟨?_, ?_, ?_, by decide⟩
  · intro d name
    unfold selectNotification
    by_cases h0 : d = 0
    · simp [h0]
    · by_cases h1 : d = 1
      · simp [h0, h1]
      · by_cases h3 : d = 3
        · simp [h0, h1, h3]
        · simp [h0, h1, h3]
  · intro name
    exact ⟨⟨_, _, rfl⟩, ⟨_, _, rfl⟩, ⟨_, _, rfl⟩, rfl⟩
  · intro o now users log d hd
    rcases run_dispatched_src o now users log d hd with
      ⟨u, hu, pt, hpt, item, hitem, hge, hle, t, ti, b, hsel, hd'⟩
    subst hd'
    exact ⟨u, hu, item, hitem, rfl, ti, b, hsel⟩

theorem c4_witness :
    (selectNotification 2 "Milk" = none ↔ ¬((2 : Int) = 0 ∨ (2 : Int) = 1 ∨ (2 : Int) = 3)) ∧
    (∃ u ∈ [userMilk], ∃ item ∈ u.foodItems,
      (⟨1, "expiry_day"⟩ : LogEntry).foodItemId = item.id ∧
      ∃ ti b, selectNotification (calculateDaysUntilExpiration item.expirationDate 0)
        item.name = some ((⟨1, "expiry_day"⟩ : LogEntry).type, ti, b)) :=
  ⟨c4_exact_day_thresholds.1 2 "Milk",
    c4_exact_day_thresholds.2.2.1 outcomesAllOk 0 [userMilk] [] ⟨1, "expiry_day"⟩ (by decide)⟩

/-- C5: a run iterates over exactly the items whose owner has a non-null push
token and whose expiration instant lies in `[today, today + 3 days]` with
`today` the midnight-normalized current date, and every dispatched payload
belongs to such an item and is addressed to its owner's token. -/
theorem c5_eligibility_window (o : Nat → String → GatewayOutcome) (now : Int)
    (users : List User) (log : List LogEntry) :
    (checkAndSendExpirationNotifications o now users log).examined =
      eligibleItemIds (setMidnight now) users ∧
    (∀ foodItemId : Nat, foodItemId ∈ eligibleItemIds (setMidnight now) users ↔
      ∃ u ∈ users, u.pushToken.isSome ∧ ∃ item ∈ u.foodItems, item.id = foodItemId ∧
        setMidnight now ≤ item.expirationDate ∧
        item.expirationDate ≤ setMidnight now + 3 * msPerDay) ∧
    (∀ nf ∈ (checkAndSendExpirationNotifications o now users log).sent,
      ∃ u ∈ users, ∃ pt, u.pushToken = some pt ∧ nf.toToken = pt ∧
        ∃ item ∈ u.foodItems, nf.foodItemId = item.id ∧
          setMidnight now ≤ item.expirationDate ∧
          item.expirationDate ≤ setMidnight now + 3 * msPerDay) := by
  refine ⟨run_examined o now users log, fun _ => mem_eligibleItemIds, ?_⟩
  intro nf hnf
  rcases run_sent_src o now users log nf hnf with
    ⟨u, hu, pt, hpt, item, hitem, hge, hle, t, ti, b, hsel, hnf'⟩
  subst hnf'
  exact ⟨u, hu, pt, hpt, rfl, item, hitem, rfl, hge, hle⟩

theorem c5_witness :
    (checkAndSendExpirationNotifications outcomesAllOk 0 [userMilk] []).examined =
      eligibleItemIds (setMidnight 0) [userMilk] ∧
    ((1 : Nat) ∈ eligibleItemIds (setMidnight 0) [userMilk] ↔
      ∃ u ∈ [userMilk], u.pushToken.isSome ∧ ∃ item ∈ u.foodItems, item.id = 1 ∧
        setMidnight 0 ≤ item.expirationDate ∧
        item.expirationDate ≤ setMidnight 0 + 3 * msPerDay) ∧
    (∃ u ∈ [userMilk], ∃ pt, u.pushToken = some pt ∧
      (⟨"tok", "Food Expiring Today!", "Milk expires today. Use it before it goes bad!", 1⟩ :
        ExpoNotification).toToken = pt ∧
      ∃ item ∈ u.foodItems,
        (⟨"tok", "Food Expiring Today!", "Milk expires today. Use it before it goes bad!", 1⟩ :
          ExpoNotification).foodItemId = item.id ∧
        setMidnight 0 ≤ item.expirationDate ∧
        item.expirationDate ≤ setMidnight 0 + 3 * msPerDay) :=
  ⟨(c5_eligibility_window outcomesAllOk 0 [userMilk] []).1,
    (c5_eligibility_window outcomesAllOk 0 [userMilk] []).2.1 1,
    (c5_eligibility_window outcomesAllOk 0 [userMilk] []).2.2 _ (by decide)⟩

/-- C6: `calculateDaysUntilExpiration` normalizes both instants to midnight
before the ceiling division by 86 400 000 ms, so the result is the exact
difference of calendar-day indices, depends only on the calendar day of each
instant, and an expiration at today 23:59 against a reference at today 00:01
yields offset 0. -/
theorem c6_day_normalization :
    (∀ e r : Int, calculateDaysUntilExpiration e r =
      e.fdiv msPerDay - r.fdiv msPerDay) ∧
    (∀ e1 e2 r1 r2 : Int, e1.fdiv msPerDay = e2.fdiv msPerDay →
      r1.fdiv msPerDay = r2.fdiv msPerDay →
      calculateDaysUntilExpiration e1 r1 = calculateDaysUntilExpiration e2 r2) ∧
    calculateDaysUntilExpiration 86340000 60000 = 0 := by
  refine ⟨calculateDays_exact, ?_, by decide⟩
  intro e1 e2 r1 r2 he hr
  rw [calculateDays_exact, calculateDays_exact, he, hr]

theorem c6_witness :
    calculateDaysUntilExpiration 86340000 60000 = calculateDaysUntilExpiration 0 0 :=
  c6_day_normalization.2.1 86340000 0 60000 0 (by decide) (by decide)

/-- C7: one item's dispatch failure never aborts the run.  The run's entire
observable behaviour is independent of the gateway's outcomes (the scheduler
discards `sendPushNotification`'s resolution), and in the concrete 3-item
scenario where item 2's dispatch fails, items 1 and 3 are still dispatched and
logged in the same run. -/
theorem c7_continue_on_error :
    (∀ (o o' : Nat → String → GatewayOutcome) (now : Int) (users : List User)
      (log : List LogEntry),
      checkAndSendExpirationNotifications o now users log =
        checkAndSendExpirationNotifications o' now users log) ∧
    (checkAndSendExpirationNotifications outcomesFailSecond 0 [userThree] []).sent.map
        (·.foodItemId) = [1, 2, 3] ∧
    (checkAndSendExpirationNotifications outcomesFailSecond 0 [userThree] []).log =
      [⟨1, "expiry_day"⟩, ⟨2, "one_day"⟩, ⟨3, "three_day"⟩] ∧
    (checkAndSendExpirationNotifications outcomesFailSecond 0 [userThree] []).errored =
      none := by
  exact ⟨fun o o' now users log => rfl, by decide, by decide, by decide⟩

/-- C8 counterexample: when a concurrent run wins the check/create race for
the pair (1, expiry_day), the scheduler does NOT treat the storage layer's
already-exists report as success: the uncaught `P2002` error aborts the run —
of the three eligible items only item 1 is ever examined. -/
theorem c8_counterexample :
    (checkAndSendExpirationNotificationsWith outcomesAllOk raceOnMilk 0 [userThree] []).errored =
      some "P2002" ∧
    (checkAndSendExpirationNotificationsWith outcomesAllOk raceOnMilk 0 [userThree]
      []).examined = [1] := by
  decide

/-- C8 (amended): when the record step reports that the pair already exists,
the storage layer inserts nothing (the log is unchanged) and the scheduler
does not re-send the notification, but it does not treat the report as
success: the unique-constraint error propagates — every later iteration is
skipped and the run's promise rejects with it. -/
theorem c8_amended :
    (∀ (log : List LogEntry) (foodItemId : Nat) (t : String),
      (⟨foodItemId, t⟩ : LogEntry) ∈ log →
      notificationLogCreate log foodItemId t = .error "P2002") ∧
    (∀ (o : Nat → String → GatewayOutcome) (today : Int) (pt : String)
      (conc : Nat → String → List LogEntry) (st : RunState) (item : FoodItem) (e : String),
      st.errored = some e → processItem o today pt conc st item = st) ∧
    ((checkAndSendExpirationNotificationsWith outcomesAllOk raceOnMilk 0 [userThree] []).log =
        [] ∧
      (checkAndSendExpirationNotificationsWith outcomesAllOk raceOnMilk 0 [userThree]
        []).sent.length = 1 ∧
      runReport (checkAndSendExpirationNotificationsWith outcomesAllOk raceOnMilk 0 [userThree]
        []) = .error "P2002") := by
  refine ⟨?_, ?_, by decide, by decide, rfl⟩
  · intro log foodItemId t hmem
    rw [create_eq, if_pos hmem]
  · intro o today pt conc st item e h
    exact processItem_errored o today pt conc item h

theorem c8_amended_witness :
    notificationLogCreate [(⟨1, "expiry_day"⟩ : LogEntry)] 1 "expiry_day" = .error "P2002" ∧
    processItem outcomesAllOk 0 "tok" noRace
        { log := [], sent := [], dispatched := [], examined := [], errored := some "P2002" }
        ⟨1, "Milk", 0⟩ =
      { log := [], sent := [], dispatched := [], examined := [], errored := some "P2002" } :=
  ⟨c8_amended.1 [(⟨1, "expiry_day"⟩ : LogEntry)] 1 "expiry_day" (List.mem_singleton.mpr rfl),
    c8_amended.2.1 outcomesAllOk 0 "tok" noRace _ _ "P2002" rfl⟩

/-- C9 counterexample: the run does not report sent/skipped/failed counts to
its caller.  A run that sent one notification with every dispatch failing and
a run that sent nothing resolve with the identical caller-visible value, so
the claimed aggregate summary (and per-item error list) does not exist. -/
theorem c9_counterexample :
    runReport (checkAndSendExpirationNotifications outcomesAllFail 0 [userMilk] []) =
      runReport (checkAndSendExpirationNotifications outcomesAllOk 0 [] []) ∧
    (checkAndSendExpirationNotifications outcomesAllFail 0 [userMilk] []).sent.length = 1 ∧
    (checkAndSendExpirationNotifications outcomesAllOk 0 [] []).sent.length = 0 :=
  ⟨rfl, by decide, by decide⟩

/-- C9 (amended): a solo run terminates after iterating over exactly the
eligible items and resolves with no value: the caller receives no aggregate
counts and no per-item errors, and dispatch failures are never thrown past the
scheduler boundary. -/
theorem c9_amended (o : Nat → String → GatewayOutcome) (now : Int) (users : List User)
    (log : List LogEntry) :
    (checkAndSendExpirationNotifications o now users log).examined =
      eligibleItemIds (setMidnight now) users ∧
    runReport (checkAndSendExpirationNotifications o now users log) = .ok () := by
  refine ⟨run_examined o now users log, ?_⟩
  unfold runReport
  rw [run_errored_none]

/-- C10: `sendPushNotification` resolves with no value for every notification
and every gateway outcome — HTTP success, non-OK response, or rejected fetch —
so its caller cannot observe whether the dispatch succeeded. -/
theorem c10_send_never_rejects :
    ∀ (outcome : GatewayOutcome) (notification : ExpoNotification),
      sendPushNotification outcome notification = .ok () := by
  intro outcome notification
  cases outcome <;> rfl

end ExpireAI
